import Mathlib

/-!
Verification of the gostbot GOST-catalog search and ingestion pipeline.

This file is a shallow embedding of the repository's core subsystem:

* `src/tgbot/models.py` — the `Gost` record and its SQLite-backed table;
* `src/tgbot/data_sources.py` — the per-origin adapters, the aggregator
  (`fetch_from_all_sources`), the persistence step (`save_gosts_to_db`) and
  the refresh entry point (`update_database_from_all_sources`);
* `src/tgbot/parse_tools.py` — the search service (`get_search_list_db`,
  `get_search_list_online`, `get_search_list`).

Modelling conventions:

* The store (the SQLite `gosts` table) is a `List Gost` in rowid order;
  unordered `SELECT`s over a single freshly-populated table are modelled as
  returning rows in that order, and autoincrement assigns `store.length + 1`
  as the id of a newly inserted row.
* SQLAlchemy's `Column.like` compiles to SQLite `LIKE`, whose semantics is
  modelled by `likeMatch`: `%` matches any (possibly empty) run of
  characters, `_` matches exactly one character, and any other pattern
  character matches case-insensitively for ASCII letters only (SQLite's
  default `LIKE` behaviour; non-ASCII characters, e.g. Cyrillic, compare
  case-sensitively).
* Network and markup collaborators (`requests`, `BeautifulSoup`, `lxml`)
  are external capabilities: their behaviour is passed in as explicit data
  (`Except`/`Option` values, lists of per-item outcomes), and a Python
  exception raised by a collaborator is an explicit `.error` / `.raise`
  value threaded through the control flow exactly where the `try`/`except`
  blocks of the source put it.
* Python `str.lower()` / `str.upper()` are modelled on the alphabets the
  data actually uses (ASCII and the basic Cyrillic block) by `pyLower` /
  `ruUpper`; Python `str.strip()` is modelled by `pyStrip` (drop whitespace
  from both ends).
-/

/-- A persisted GOST record: one row of the `gosts` table declared in
`src/tgbot/models.py` (`id` integer primary key, `name`, `description`). -/
structure Gost where
  id : Nat
  name : String
  description : String
  deriving DecidableEq, Repr

/-- A transient candidate record produced by a source adapter: the Python
dict `{'name': ..., 'description': ...}` built by every `fetch_gosts`
implementation in `src/tgbot/data_sources.py`. -/
structure Candidate where
  name : String
  description : String
  deriving DecidableEq, Repr

/-- SQLite `LIKE` character folding: ASCII upper-case letters compare equal
to their lower-case forms; all other characters (including Cyrillic) are
compared exactly. -/
def likeFold (c : Char) : Char :=
  if 'A' ≤ c ∧ c ≤ 'Z' then Char.ofNat (c.toNat + 32) else c

/-- All suffixes of a character list, longest first (the list itself down to
`[]`). Used to give `%` its "match any run of characters" semantics. -/
def tailsL : List Char → List (List Char)
  | [] => [[]]
  | c :: s => (c :: s) :: tailsL s

/-- SQLite `LIKE` pattern matching (no `ESCAPE` clause, as in the source):
`likeMatch pat s` holds iff the string `s` matches the pattern `pat`, where
`%` matches any run of characters, `_` matches exactly one character, and
other characters match up to `likeFold`. -/
def likeMatch : List Char → List Char → Bool
  | [], s => s.isEmpty
  | p :: ps, s =>
    if p = '%' then (tailsL s).any (fun t => likeMatch ps t)
    else
      match s with
      | [] => false
      | c :: s' =>
        if p = '_' then likeMatch ps s'
        else (likeFold p == likeFold c) && likeMatch ps s'

/-- `sqlLike pat s`: the SQL expression `s LIKE pat` as issued by
`Gost.name.like(...)` / `Gost.description.like(...)` in
`src/tgbot/parse_tools.py`. -/
def sqlLike (pat : String) (s : String) : Bool :=
  likeMatch pat.data s.data

/-- `isPrefixL n h`: `n` is an initial segment of `h` (exact character
comparison). -/
def isPrefixL : List Char → List Char → Bool
  | [], _ => true
  | _ :: _, [] => false
  | a :: as, b :: bs => (a == b) && isPrefixL as bs

/-- `listInfix n h`: `n` occurs contiguously inside `h` (exact character
comparison) — Python's `n in h` substring test. -/
def listInfix (n : List Char) : List Char → Bool
  | [] => isPrefixL n []
  | c :: t => isPrefixL n (c :: t) || listInfix n t

/-- `containsSub hay needle`: `needle in hay` on strings, Python's
case-sensitive substring test. -/
def containsSub (hay needle : String) : Bool :=
  listInfix needle.data hay.data

/-- Python `str.strip()`: remove whitespace from both ends of a string. -/
def pyStrip (s : String) : String :=
  ⟨(((s.data.dropWhile Char.isWhitespace).reverse).dropWhile Char.isWhitespace).reverse⟩

/-- The description-pass loop of `get_search_list_db`
(`src/tgbot/parse_tools.py` lines 93–96): append each description match
whose id has not been seen, extending the seen-id set as it goes. -/
def appendNonDup : List Gost → List Gost → List Nat → List Gost
  | res, [], _ => res
  | res, g :: rest, ids =>
    if g.id ∈ ids then appendNonDup res rest ids
    else appendNonDup (res ++ [g]) rest (g.id :: ids)

/-- `get_search_list_db` (`src/tgbot/parse_tools.py` lines 72–98): query the
store for rows whose `name` matches `LIKE '%' + search_text + '%'`, then
append rows whose `description` matches the same pattern, skipping ids
already collected. -/
def get_search_list_db (store : List Gost) (searchText : String) : List Gost :=
  let pat := "%" ++ searchText ++ "%"
  let res := store.filter (fun g => sqlLike pat g.name)
  let descResults := store.filter (fun g => sqlLike pat g.description)
  appendNonDup res descResults (res.map (fun g => g.id))

/-- The outcome of invoking one registered adapter from the aggregator loop
(`src/tgbot/data_sources.py` lines 476–481): either the list the adapter
returned, or the exception its invocation raised. -/
abbrev SourceRun := Except String (List Candidate)

/-- The accumulation phase of `fetch_from_all_sources`
(`src/tgbot/data_sources.py` lines 474–481): `all_gosts = []`, then for each
source, `try: all_gosts.extend(fetch_from_source(source)) except: continue`. -/
def allFetched (runs : List SourceRun) : List Candidate :=
  runs.foldl
    (fun acc r =>
      match r with
      | Except.ok gs => acc ++ gs
      | Except.error _ => acc)
    []

/-- The de-duplication loop of `fetch_from_all_sources`
(`src/tgbot/data_sources.py` lines 484–489): keep the first occurrence of
each `name`, tracking a seen-name set. -/
def dedupGosts : List Candidate → List String → List Candidate
  | [], _ => []
  | g :: rest, seen =>
    if g.name ∈ seen then dedupGosts rest seen
    else g :: dedupGosts rest (g.name :: seen)

/-- `fetch_from_all_sources` (`src/tgbot/data_sources.py` lines 467–492):
accumulate the output of every registered adapter (skipping the ones whose
invocation raised) and de-duplicate by `name`, first occurrence winning. -/
def fetch_from_all_sources (runs : List SourceRun) : List Candidate :=
  dedupGosts (allFetched runs) []

/-- `save_gosts_to_db` (`src/tgbot/data_sources.py` lines 495–518): for each
candidate, insert a new row unless some row (including rows added earlier in
the same batch — the session autoflushes before each query) already carries
exactly the same `name`; count the inserts. Autoincrement hands the new row
the id `store.length + 1`. -/
def save_gosts_to_db : List Gost → List Candidate → List Gost × Nat
  | store, [] => (store, 0)
  | store, g :: rest =>
    if store.any (fun e => e.name == g.name) then
      save_gosts_to_db store rest
    else
      let r := save_gosts_to_db
        (store ++ [{ id := store.length + 1, name := g.name, description := g.description }]) rest
      (r.1, r.2 + 1)

/-- `update_database_from_all_sources` (`src/tgbot/data_sources.py` lines
521–529): fetch from every source, then persist the merged batch, returning
the new store and the count of rows inserted. -/
def update_database_from_all_sources (store : List Gost) (runs : List SourceRun) :
    List Gost × Nat :=
  save_gosts_to_db store (fetch_from_all_sources runs)

/-- Python `str.lower()` restricted to the alphabets the data uses: ASCII
letters and the basic Cyrillic block (А–Я and Ё). -/
def pyLowerChar (c : Char) : Char :=
  if 'A' ≤ c ∧ c ≤ 'Z' then Char.ofNat (c.toNat + 32)
  else if 0x410 ≤ c.toNat ∧ c.toNat ≤ 0x42F then Char.ofNat (c.toNat + 0x20)
  else if c.toNat = 0x401 then Char.ofNat 0x451
  else c

/-- Python `str.lower()` on a whole string (see `pyLowerChar`). -/
def pyLower (s : String) : String :=
  ⟨s.data.map pyLowerChar⟩

/-- Python `str.upper()` restricted to ASCII letters and the basic Cyrillic
block (а–я and ё), as used in the `'ГОСТ' in name.upper()` adapter filters. -/
def ruUpperChar (c : Char) : Char :=
  if 'a' ≤ c ∧ c ≤ 'z' then Char.ofNat (c.toNat - 32)
  else if 0x430 ≤ c.toNat ∧ c.toNat ≤ 0x44F then Char.ofNat (c.toNat - 0x20)
  else if c.toNat = 0x451 then Char.ofNat 0x401
  else c

/-- Python `str.upper()` on a whole string (see `ruUpperChar`). -/
def ruUpper (s : String) : String :=
  ⟨s.data.map ruUpperChar⟩

/-- The filter of `get_search_list_online` (`src/tgbot/parse_tools.py` lines
60–67): keep a candidate when the lowered query occurs in its lowered name
or lowered description. -/
def onlineMatch (searchText : String) (g : Candidate) : Bool :=
  containsSub (pyLower g.name) (pyLower searchText) ||
  containsSub (pyLower g.description) (pyLower searchText)

/-- `get_search_list_online` (`src/tgbot/parse_tools.py` lines 48–69): fetch
from all sources and keep the candidates matching the query
case-insensitively. -/
def get_search_list_online (runs : List SourceRun) (searchText : String) : List Candidate :=
  (fetch_from_all_sources runs).filter (onlineMatch searchText)

/-- `get_search_list` (`src/tgbot/parse_tools.py` lines 101–118): query the
store first and return its matches as name/description pairs; when the store
yields nothing, fall back to the online search. -/
def get_search_list (store : List Gost) (runs : List SourceRun) (searchText : String) :
    List (String × String) :=
  let dbResults := get_search_list_db store searchText
  if dbResults.isEmpty then
    (get_search_list_online runs searchText).map (fun g => (g.name, g.description))
  else
    dbResults.map (fun g => (g.name, g.description))

/-- The row loop of `GostRuDataSource.fetch_gosts`
(`src/tgbot/data_sources.py` lines 112–118): split each CSV line on `;`;
lines with at least two fields yield a candidate with both fields stripped,
shorter lines are skipped. -/
def gostRuParseRows (lines : List String) : List Candidate :=
  lines.filterMap (fun line =>
    match line.splitOn ";" with
    | a :: b :: _ => some { name := pyStrip a, description := pyStrip b }
    | _ => none)

/-- `GostRuDataSource.fetch_gosts` (`src/tgbot/data_sources.py` lines
81–127) over its collaborators: `page` is the catalog-page request (an
`.error` is an exception caught by the adapter's `except` clauses),
`csvLinks` is what the two XPath probes deliver on that page, and `csvFile`
is the CSV download decoded into lines (again `.error` for a raised
exception). Every failure path returns the rows accumulated so far — which
is none, since all fallible steps precede the row loop. -/
def gostRu_fetch_gosts (page : Except String Unit) (csvLinks : List String)
    (csvFile : Except String (List String)) : List Candidate :=
  match page with
  | Except.error _ => []
  | Except.ok _ =>
    match csvLinks with
    | [] => []
    | _ :: _ =>
      match csvFile with
      | Except.error _ => []
      | Except.ok content => gostRuParseRows (content.drop 1)

/-- One step of an HTML-scanning adapter's item loop: querying the parsed
tree for this block either raises (`raise`), finds no usable title element
(`ok none`), or extracts a title/description pair (`ok (some _)`; a missing
description element is the empty string, as in the source). -/
inductive ItemStep where
  | raise (e : String)
  | ok (extracted : Option (String × String))
  deriving DecidableEq, Repr

/-- The accumulation loop shared by the six HTML-scanning adapters in
`src/tgbot/data_sources.py`: walk the scanned blocks in order, keep the
extracted pairs that pass the adapter's filter, and stop at the first block
whose processing raises, remembering the exception. -/
def scanItems (keep : String × String → Bool) : List ItemStep → List Candidate × Option String
  | [] => ([], none)
  | ItemStep.raise e :: _ => ([], some e)
  | ItemStep.ok none :: rest => scanItems keep rest
  | ItemStep.ok (some x) :: rest =>
    let r := scanItems keep rest
    if keep x then ({ name := x.1, description := x.2 } :: r.1, r.2) else r

/-- Keep-filter of `DocsCntdRuDataSource.fetch_gosts`
(`src/tgbot/data_sources.py` line 167): `if name and 'ГОСТ' in name.upper()`. -/
def docsCntdKeep (x : String × String) : Bool :=
  (x.1 != "") && containsSub (ruUpper x.1) "ГОСТ"

/-- Keep-filter of `MeganormRuDataSource.fetch_gosts`
(`src/tgbot/data_sources.py` line 209): the row's link text must contain
`ГОСТ` (upper-cased comparison). -/
def meganormKeep (x : String × String) : Bool :=
  containsSub (ruUpper x.1) "ГОСТ"

/-- Keep-filter of `ProtectGostRuDataSource.fetch_gosts`
(`src/tgbot/data_sources.py` lines 264–275): every extracted title is kept. -/
def protectKeep (_ : String × String) : Bool :=
  true

/-- Keep-filter of `FilesStroyinfRuDataSource.fetch_gosts`
(`src/tgbot/data_sources.py` line 313): the link text must contain `ГОСТ`
(upper-cased comparison). -/
def filesStroyinfKeep (x : String × String) : Bool :=
  containsSub (ruUpper x.1) "ГОСТ"

/-- Keep-filter of `InternetLawRuDataSource.fetch_gosts`
(`src/tgbot/data_sources.py` line 373): `if 'ГОСТ' in name.upper()`. -/
def internetLawKeep (x : String × String) : Bool :=
  containsSub (ruUpper x.1) "ГОСТ"

/-- Keep-filter of `LibGostRuDataSource.fetch_gosts`
(`src/tgbot/data_sources.py` line 422): `if 'ГОСТ' in name.upper() or name`. -/
def libGostKeep (x : String × String) : Bool :=
  containsSub (ruUpper x.1) "ГОСТ" || (x.1 != "")

/-- The single-page HTML-scanning adapter shape shared by
`DocsCntdRuDataSource`, `MeganormRuDataSource`, `FilesStroyinfRuDataSource`,
`InternetLawRuDataSource` and `LibGostRuDataSource`: `get_html` returning
`None` (`page = none`) yields an empty list before the `try` block; otherwise
the item loop runs inside `try`, and the `except` clause swallows any raised
exception and returns the candidates accumulated so far. -/
def scanAdapterFetch (keep : String × String → Bool) (page : Option (List ItemStep)) :
    List Candidate :=
  match page with
  | none => []
  | some items => (scanItems keep items).1

/-- `DocsCntdRuDataSource.fetch_gosts` (`src/tgbot/data_sources.py` lines
142–178) over its collaborators. -/
def docsCntd_fetch_gosts (page : Option (List ItemStep)) : List Candidate :=
  scanAdapterFetch docsCntdKeep page

/-- `MeganormRuDataSource.fetch_gosts` (`src/tgbot/data_sources.py` lines
193–228) over its collaborators. -/
def meganorm_fetch_gosts (page : Option (List ItemStep)) : List Candidate :=
  scanAdapterFetch meganormKeep page

/-- `FilesStroyinfRuDataSource.fetch_gosts` (`src/tgbot/data_sources.py`
lines 297–334) over its collaborators. -/
def filesStroyinf_fetch_gosts (page : Option (List ItemStep)) : List Candidate :=
  scanAdapterFetch filesStroyinfKeep page

/-- `InternetLawRuDataSource.fetch_gosts` (`src/tgbot/data_sources.py` lines
349–384) over its collaborators. -/
def internetLaw_fetch_gosts (page : Option (List ItemStep)) : List Candidate :=
  scanAdapterFetch internetLawKeep page

/-- `LibGostRuDataSource.fetch_gosts` (`src/tgbot/data_sources.py` lines
399–433) over its collaborators. -/
def libGost_fetch_gosts (page : Option (List ItemStep)) : List Candidate :=
  scanAdapterFetch libGostKeep page

/-- `ProtectGostRuDataSource.fetch_gosts` (`src/tgbot/data_sources.py` lines
243–282): one `try` block looping over the two search prefixes `'ГОСТ Р'`
and `'ГОСТ'`; a page whose `get_html` returned `None` is skipped
(`continue`), an exception while scanning a page aborts the loop and the
`except` clause returns everything accumulated up to that point. -/
def protectGost_fetch_gosts (page1 page2 : Option (List ItemStep)) : List Candidate :=
  let r1 :=
    match page1 with
    | none => ([], none)
    | some items => scanItems protectKeep items
  match r1.2 with
  | some _ => r1.1
  | none =>
    let r2 :=
      match page2 with
      | none => ([], none)
      | some items => scanItems protectKeep items
    r1.1 ++ r2.1

/-- A scanned block that did not raise. -/
def stepIsOkB : ItemStep → Bool
  | ItemStep.raise _ => false
  | ItemStep.ok _ => true

/-- The candidate (if any) a non-raising scanned block contributes under the
adapter's keep-filter. -/
def stepExtract (keep : String × String → Bool) : ItemStep → Option Candidate
  | ItemStep.ok (some x) => if keep x then some { name := x.1, description := x.2 } else none
  | _ => none

/-- The candidates an HTML-scanning adapter harvests from an item stream:
exactly the keepable extractions that precede the first raising block. -/
def prefixExtract (keep : String × String → Bool) (items : List ItemStep) : List Candidate :=
  (items.takeWhile stepIsOkB).filterMap (stepExtract keep)

/-- The per-adapter lists returned by the non-raising adapter invocations,
in registry order — the contributions `fetch_from_all_sources` accumulates. -/
def okResults (runs : List SourceRun) : List (List Candidate) :=
  runs.filterMap (fun r =>
    match r with
    | Except.ok gs => some gs
    | Except.error _ => none)

/-- Concatenation of a list of candidate batches, in order. -/
def concatAll : List (List Candidate) → List Candidate
  | [] => []
  | l :: ls => l ++ concatAll ls

/-- The query occurs in the record's `name` as a case-sensitive substring
(the spec's notion of a name match). -/
def substrOnName (q : String) (g : Gost) : Bool :=
  containsSub g.name q

/-- The query occurs in the record's `description` as a case-sensitive
substring (the spec's notion of a description match). -/
def substrOnDesc (q : String) (g : Gost) : Bool :=
  containsSub g.description q

/-- The store-search contract exactly as the spec words it, stated against
`get_search_list_db`: every record containing the query (case-sensitive
substring) in name or description is returned, every record whose name
contains the query is positioned before every record that contains it only
in the description, and no record appears twice. -/
def C1Claim (store : List Gost) (q : String) : Prop :=
  (∀ g ∈ store, (substrOnName q g || substrOnDesc q g) = true →
      g ∈ get_search_list_db store q)
  ∧ (∀ i j : Fin (get_search_list_db store q).length,
      substrOnName q ((get_search_list_db store q).get i) = true →
      substrOnDesc q ((get_search_list_db store q).get j) = true →
      substrOnName q ((get_search_list_db store q).get j) = false →
      i < j)
  ∧ (get_search_list_db store q).Nodup

-- ### Evaluation facts: the model on concrete inputs

/-- Evaluation check: SQLite `LIKE` folds ASCII letters, so the pattern
`%widgets%` matches `"ГОСТ WIDGETS 9"`. -/
theorem sanity_like_ascii_fold : sqlLike "%widgets%" "ГОСТ WIDGETS 9" = true := by decide

/-- Evaluation check: SQLite `LIKE` does not fold non-ASCII letters, so the
pattern `%ГОСТ%` does not match the lower-case `"гост 1"`. -/
theorem sanity_like_cyrillic_exact : sqlLike "%ГОСТ%" "гост 1" = false := by decide

/-- Evaluation check: the aggregator skips a raising origin, keeps the
others, and keeps the first occurrence of a duplicated name. -/
theorem sanity_fetch_all : fetch_from_all_sources
    [Except.ok [⟨"ГОСТ 1", "X"⟩], Except.error "boom", Except.ok [⟨"ГОСТ 1", "Y"⟩, ⟨"ГОСТ 2", "Z"⟩]]
    = [⟨"ГОСТ 1", "X"⟩, ⟨"ГОСТ 2", "Z"⟩] := by decide

/-- Evaluation check: persistence skips a within-batch duplicate name and
counts only the rows actually inserted. -/
theorem sanity_save_batch : save_gosts_to_db [] [⟨"a", "d1"⟩, ⟨"a", "d2"⟩, ⟨"b", "d3"⟩]
    = ([⟨1, "a", "d1"⟩, ⟨2, "b", "d3"⟩], 2) := by decide

/-- Evaluation check: an HTML-scanning adapter keeps the candidates parsed
before a raising block, drops the unfiltered ones, and stops at the raise. -/
theorem sanity_scan_partial : scanItems docsCntdKeep
    [ItemStep.ok (some ("ГОСТ 1", "x")), ItemStep.ok none, ItemStep.ok (some ("junk", "y")),
      ItemStep.raise "bad markup", ItemStep.ok (some ("ГОСТ 2", "z"))]
    = ([⟨"ГОСТ 1", "x"⟩], some "bad markup") := by decide

/-- Evaluation check: the spec's fallback scenario — empty store, one
candidate online — is answered through the online path. -/
theorem sanity_search_fallback : get_search_list [] [Except.ok [⟨"ГОСТ 2200-06", "Fittings"⟩]] "2200"
    = [("ГОСТ 2200-06", "Fittings")] := by decide

-- ### Helper lemmas: LIKE pattern matching

/-- A list is its own longest suffix. -/
theorem mem_tailsL_self (s : List Char) : s ∈ tailsL s := by
  cases s <;> simp [tailsL]

/-- The empty list is a suffix of every list. -/
theorem nil_mem_tailsL (s : List Char) : [] ∈ tailsL s := by
  induction s with
  | nil => simp [tailsL]
  | cons c s ih => simp [tailsL, ih]

/-- Suffixes survive prepending: a suffix of `s` is a suffix of `pre ++ s`. -/
theorem mem_tailsL_append (pre s t : List Char) (h : t ∈ tailsL s) :
    t ∈ tailsL (pre ++ s) := by
  induction pre with
  | nil => simpa using h
  | cons c pre ih => simp [tailsL]; right; exact ih

/-- Unfolding: a pattern starting with `%` matches `s` iff its tail matches
some suffix of `s`. -/
theorem likeMatch_star (ps s : List Char) :
    likeMatch ('%' :: ps) s = (tailsL s).any (fun t => likeMatch ps t) := rfl

/-- A `%` at the head of the pattern can match the empty run. -/
theorem likeMatch_star_of {ps s : List Char} (h : likeMatch ps s = true) :
    likeMatch ('%' :: ps) s = true := by
  rw [likeMatch_star, List.any_eq_true]
  exact ⟨s, mem_tailsL_self s, h⟩

/-- The pattern `%` alone matches every string. -/
theorem likeMatch_pct (s : List Char) : likeMatch ['%'] s = true := by
  rw [likeMatch_star, List.any_eq_true]
  exact ⟨[], nil_mem_tailsL s, rfl⟩

/-- The pattern `%%` matches every string. -/
theorem likeMatch_pct_pct (s : List Char) : likeMatch ['%', '%'] s = true :=
  likeMatch_star_of (likeMatch_pct s)

/-- The pattern `%%%` matches every string. -/
theorem likeMatch_pct_pct_pct (s : List Char) : likeMatch ['%', '%', '%'] s = true :=
  likeMatch_star_of (likeMatch_pct_pct s)

/-- A pattern ending in `%` matches its own literal text followed by
anything: every pattern character matches itself (`%` may consume the
literal `%`, `_` the literal `_`, folding is reflexive). -/
theorem likeMatch_append_pct (n post : List Char) :
    likeMatch (n ++ ['%']) (n ++ post) = true := by
  induction n with
  | nil => simpa using likeMatch_pct post
  | cons c n ih =>
    by_cases hc : c = '%'
    · subst hc
      rw [List.cons_append, List.cons_append, likeMatch_star, List.any_eq_true]
      refine ⟨n ++ post, ?_, ih⟩
      rw [show tailsL ('%' :: (n ++ post)) = ('%' :: (n ++ post)) :: tailsL (n ++ post) from rfl]
      exact List.mem_cons_of_mem _ (mem_tailsL_self _)
    · by_cases hu : c = '_'
      · subst hu
        simpa [likeMatch] using ih
      · simp only [List.cons_append, likeMatch, if_neg hc, if_neg hu, Bool.and_eq_true,
          beq_self_eq_true, true_and]
        exact ih

-- ### Helper lemmas: substring containment

/-- `isPrefixL` agrees with "there is a completion": `n` is a prefix of `h`
iff `h` is `n` followed by some tail. -/
theorem isPrefixL_iff (n h : List Char) :
    isPrefixL n h = true ↔ ∃ t, h = n ++ t := by
  induction n generalizing h with
  | nil => simp [isPrefixL]
  | cons a as ih =>
    cases h with
    | nil =>
      constructor
      · intro hp; exact absurd hp (by simp [isPrefixL])
      · rintro ⟨t, ht⟩; cases ht
    | cons b bs =>
      constructor
      · intro hp
        simp only [isPrefixL, Bool.and_eq_true, beq_iff_eq] at hp
        obtain ⟨rfl, hrest⟩ := hp
        obtain ⟨t, rfl⟩ := (ih bs).mp hrest
        exact ⟨t, rfl⟩
      · rintro ⟨t, ht⟩
        injection ht with h1 h2
        subst h1; subst h2
        simp only [isPrefixL, beq_self_eq_true, Bool.true_and]
        exact (ih (as ++ t)).mpr ⟨t, rfl⟩

/-- `listInfix` agrees with "occurs inside": `n` occurs in `h` iff `h`
splits as `pre ++ n ++ post`. -/
theorem listInfix_iff (n h : List Char) :
    listInfix n h = true ↔ ∃ pre post, h = pre ++ (n ++ post) := by
  induction h with
  | nil =>
    simp only [listInfix, isPrefixL_iff]
    constructor
    · rintro ⟨t, ht⟩; exact ⟨[], t, by simpa using ht⟩
    · rintro ⟨pre, post, hp⟩
      obtain ⟨h1, h2⟩ := List.append_eq_nil.mp hp.symm
      exact ⟨post, h2.symm⟩
  | cons c t ih =>
    simp only [listInfix, Bool.or_eq_true, isPrefixL_iff, ih]
    constructor
    · rintro (⟨u, hu⟩ | ⟨pre, post, hp⟩)
      · exact ⟨[], u, by simpa using hu⟩
      · exact ⟨c :: pre, post, by simp [hp]⟩
    · rintro ⟨pre, post, hp⟩
      cases pre with
      | nil => exact Or.inl ⟨post, by simpa using hp⟩
      | cons d pre =>
        injection hp with h1 h2
        exact Or.inr ⟨pre, post, h2⟩

/-- A case-sensitive substring occurrence always satisfies the SQL pattern
`'%' ++ q ++ '%'`: every literal character of `q` matches itself under
`LIKE`, even the wildcard characters and case-folded letters. -/
theorem likeMatch_of_infix {q s : List Char} (h : listInfix q s = true) :
    likeMatch ('%' :: (q ++ ['%'])) s = true := by
  rcases (listInfix_iff q s).mp h with ⟨pre, post, rfl⟩
  rw [likeMatch_star, List.any_eq_true]
  exact ⟨q ++ post, mem_tailsL_append pre _ _ (mem_tailsL_self _), likeMatch_append_pct q post⟩

/-- The pattern built by `get_search_list_db` for query `q`, as a character
list: `'%' ++ q ++ '%'`. -/
theorem pat_data (q : String) : ("%" ++ q ++ "%").data = '%' :: (q.data ++ ['%']) := by
  have h1 : ("%" ++ q).data = '%' :: q.data := rfl
  have h2 : (("%" ++ q) ++ "%").data = ("%" ++ q).data ++ ['%'] := rfl
  rw [h2, h1]; rfl

/-- A case-sensitive substring occurrence of the query in a field implies
the field matches the store's `LIKE` pattern. -/
theorem sqlLike_of_containsSub {q s : String} (h : containsSub s q = true) :
    sqlLike ("%" ++ q ++ "%") s = true := by
  unfold sqlLike
  rw [pat_data]
  exact likeMatch_of_infix h

-- ### Helper lemmas: the store search

/-- `get_search_list_db` unfolded: the name pass, then the description pass
filtered against the ids already returned. -/
theorem get_search_list_db_eq (store : List Gost) (q : String) :
    get_search_list_db store q =
      appendNonDup (store.filter (fun g => sqlLike ("%" ++ q ++ "%") g.name))
        (store.filter (fun g => sqlLike ("%" ++ q ++ "%") g.description))
        ((store.filter (fun g => sqlLike ("%" ++ q ++ "%") g.name)).map (fun g => g.id)) := rfl

/-- When every queued description match carries an id already in the seen
set, the description pass adds nothing. -/
theorem appendNonDup_all_mem :
    ∀ (l res : List Gost) (ids : List Nat),
      (∀ g ∈ l, g.id ∈ ids) → appendNonDup res l ids = res := by
  intro l
  induction l with
  | nil => intro res ids _; rfl
  | cons g rest ih =>
    intro res ids h
    simp only [appendNonDup]
    rw [if_pos (h g (List.mem_cons_self _ _))]
    exact ih res ids (fun x hx => h x (List.mem_cons_of_mem _ hx))

/-- When the queued description matches carry pairwise-distinct ids, the
description pass is a plain filter: append the queued rows whose id is not
in the seen set. -/
theorem appendNonDup_eq_filter :
    ∀ (l res : List Gost) (ids : List Nat),
      (l.map (fun g => g.id)).Nodup →
      appendNonDup res l ids = res ++ l.filter (fun g => decide (g.id ∉ ids)) := by
  intro l
  induction l with
  | nil => intro res ids _; simp [appendNonDup]
  | cons g rest ih =>
    intro res ids hnd
    rw [List.map_cons, List.nodup_cons] at hnd
    obtain ⟨hgid, hrest⟩ := hnd
    by_cases hmem : g.id ∈ ids
    · simp only [appendNonDup]
      rw [if_pos hmem, ih res ids hrest, List.filter_cons]
      simp [hmem]
    · simp only [appendNonDup]
      rw [if_neg hmem, ih (res ++ [g]) (g.id :: ids) hrest]
      have hfeq : rest.filter (fun x => decide (x.id ∉ g.id :: ids)) =
          rest.filter (fun x => decide (x.id ∉ ids)) := by
        apply List.filter_congr
        intro x hx
        have hxg : x.id ≠ g.id := by
          intro hEq
          exact hgid (by rw [← hEq]; exact List.mem_map_of_mem _ hx)
        simp [List.mem_cons, hxg]
      rw [hfeq, List.filter_cons]
      simp [hmem, List.append_assoc]

/-- The empty query's pattern `%%` matches every string. -/
theorem sqlLike_empty_query (s : String) : sqlLike ("%" ++ "" ++ "%") s = true := by
  have h : ("%" ++ "" ++ "%" : String).data = ['%', '%'] := by decide
  unfold sqlLike
  rw [h]
  exact likeMatch_pct_pct s.data

/-- The query `%` produces the pattern `%%%`, which matches every string. -/
theorem sqlLike_pct_query (s : String) : sqlLike ("%" ++ "%" ++ "%") s = true := by
  have h : ("%" ++ "%" ++ "%" : String).data = ['%', '%', '%'] := by decide
  unfold sqlLike
  rw [h]
  exact likeMatch_pct_pct_pct s.data

/-- A query whose pattern matches every string makes `get_search_list_db`
return the whole store: the name pass already returns every row, and the
description pass then skips every row as a duplicate id. -/
theorem get_search_list_db_matchall (store : List Gost) (q : String)
    (h : ∀ s : String, sqlLike ("%" ++ q ++ "%") s = true) :
    get_search_list_db store q = store := by
  rw [get_search_list_db_eq,
    List.filter_eq_self.mpr (fun g _ => h g.name),
    List.filter_eq_self.mpr (fun g _ => h g.description)]
  exact appendNonDup_all_mem store store _ (fun g hg => List.mem_map_of_mem _ hg)

/-- `get_search_list_db` on the empty query returns the whole store. -/
theorem get_search_list_db_empty_query (store : List Gost) :
    get_search_list_db store "" = store :=
  get_search_list_db_matchall store "" sqlLike_empty_query

-- ### Helper lemmas: persistence

/-- Stored rows survive `save_gosts_to_db`: the store only grows. -/
theorem save_mem_mono :
    ∀ (l : List Candidate) (store : List Gost) (e : Gost),
      e ∈ store → e ∈ (save_gosts_to_db store l).1 := by
  intro l
  induction l with
  | nil => intro store e h; exact h
  | cons g rest ih =>
    intro store e h
    simp only [save_gosts_to_db]
    split
    · exact ih store e h
    · exact ih _ e (List.mem_append_left _ h)

/-- After a batch is saved, every candidate's name is carried by some stored
row (the pre-existing one, or the row the batch inserted). -/
theorem save_name_covered :
    ∀ (l : List Candidate) (store : List Gost) (g : Candidate),
      g ∈ l → ∃ e ∈ (save_gosts_to_db store l).1, e.name = g.name := by
  intro l
  induction l with
  | nil => intro store g hg; cases hg
  | cons a rest ih =>
    intro store g hg
    rcases List.mem_cons.mp hg with rfl | hg'
    · simp only [save_gosts_to_db]
      split
      · next hany =>
        rw [List.any_eq_true] at hany
        obtain ⟨e, he, hne⟩ := hany
        exact ⟨e, save_mem_mono rest store e he, by simpa using hne⟩
      · refine ⟨⟨store.length + 1, g.name, g.description⟩, ?_, rfl⟩
        exact save_mem_mono rest _ _ (List.mem_append_right _ (List.mem_singleton_self _))
    · simp only [save_gosts_to_db]
      split
      · exact ih store g hg'
      · exact ih _ g hg'

/-- A batch in which every candidate's name is already stored inserts
nothing: the store is unchanged and the count is `0`. -/
theorem save_skip_all :
    ∀ (l : List Candidate) (store : List Gost),
      (∀ g ∈ l, ∃ e ∈ store, e.name = g.name) →
      save_gosts_to_db store l = (store, 0) := by
  intro l
  induction l with
  | nil => intro store _; rfl
  | cons a rest ih =>
    intro store h
    obtain ⟨e, he, hen⟩ := h a (List.mem_cons_self _ _)
    have hany : store.any (fun x => x.name == a.name) = true := by
      rw [List.any_eq_true]; exact ⟨e, he, by simpa using hen⟩
    simp only [save_gosts_to_db]
    rw [if_pos hany]
    exact ih store (fun g hg => h g (List.mem_cons_of_mem _ hg))

/-- `save_gosts_to_db` preserves exact-name distinctness of the store: a row
is inserted only when no stored row carries its name. -/
theorem save_pairwise :
    ∀ (l : List Candidate) (store : List Gost),
      store.Pairwise (fun a b => a.name ≠ b.name) →
      ((save_gosts_to_db store l).1).Pairwise (fun a b => a.name ≠ b.name) := by
  intro l
  induction l with
  | nil => intro store h; exact h
  | cons a rest ih =>
    intro store h
    simp only [save_gosts_to_db]
    split
    · exact ih store h
    · next hany =>
      apply ih
      rw [List.pairwise_append]
      refine ⟨h, List.pairwise_singleton _ _, ?_⟩
      intro x hx y hy
      rw [List.mem_singleton] at hy
      subst hy
      intro hEq
      exact hany (by rw [List.any_eq_true]; exact ⟨x, hx, by simpa using hEq⟩)

-- ### Helper lemmas: the aggregator

/-- The accumulation loop of `fetch_from_all_sources` collects exactly the
concatenation of the lists returned by the non-raising adapters. -/
theorem allFetched_eq (runs : List SourceRun) :
    allFetched runs = concatAll (okResults runs) := by
  suffices h : ∀ (rs : List SourceRun) (acc : List Candidate),
      rs.foldl
          (fun acc r =>
            match r with
            | Except.ok gs => acc ++ gs
            | Except.error _ => acc)
          acc
        = acc ++ concatAll (okResults rs) by
    simpa [allFetched] using h runs []
  intro rs
  induction rs with
  | nil => intro acc; simp [concatAll, okResults]
  | cons r rest ih =>
    intro acc
    cases r with
    | ok gs => simp [okResults, concatAll, List.filterMap_cons, ih, List.append_assoc]
    | error e => simp [okResults, concatAll, List.filterMap_cons, ih]

/-- Replacing every raising adapter by one that returns the empty list does
not change what the aggregator accumulates. -/
theorem allFetched_errors_dropped (runs : List SourceRun) :
    allFetched
        (runs.map (fun r =>
          match r with
          | Except.error _ => Except.ok []
          | Except.ok gs => Except.ok gs))
      = allFetched runs := by
  rw [allFetched_eq, allFetched_eq]
  induction runs with
  | nil => rfl
  | cons r rest ih =>
    cases r with
    | ok gs => simp only [List.map_cons, okResults, List.filterMap_cons, concatAll] at ih ⊢; rw [ih]
    | error e => simp only [List.map_cons, okResults, List.filterMap_cons, concatAll] at ih ⊢; rw [List.nil_append, ih]

/-- Membership in the de-duplicated output: `c` survives iff its name is not
already in the seen set and `c` is the first queued candidate carrying its
name. -/
theorem mem_dedupGosts :
    ∀ (l : List Candidate) (seen : List String) (c : Candidate),
      c ∈ dedupGosts l seen ↔
        (c.name ∉ seen ∧ l.find? (fun x => x.name == c.name) = some c) := by
  intro l
  induction l with
  | nil => intro seen c; simp [dedupGosts]
  | cons g rest ih =>
    intro seen c
    by_cases hseen : g.name ∈ seen
    · simp only [dedupGosts]
      rw [if_pos hseen, ih]
      by_cases hgc : g.name = c.name
      · constructor
        · rintro ⟨hns, _⟩; exact absurd (hgc ▸ hseen) hns
        · rintro ⟨hns, _⟩; exact absurd (hgc ▸ hseen) hns
      · rw [List.find?_cons_of_neg _ (by simpa using hgc)]
    · simp only [dedupGosts]
      rw [if_neg hseen]
      by_cases hgc : g.name = c.name
      · rw [List.find?_cons_of_pos _ (by simpa using hgc)]
        constructor
        · intro hmem
          rcases List.mem_cons.mp hmem with rfl | hmem'
          · exact ⟨hgc ▸ hseen, rfl⟩
          · obtain ⟨hns, _⟩ := (ih _ c).mp hmem'
            exact absurd (List.mem_cons_self _ _) (hgc ▸ hns)
        · rintro ⟨_, hf⟩
          exact List.mem_cons.mpr (Or.inl (Option.some.inj hf).symm)
      · rw [List.find?_cons_of_neg _ (by simpa using hgc)]
        constructor
        · intro hmem
          rcases List.mem_cons.mp hmem with rfl | hmem'
          · exact absurd rfl hgc
          · obtain ⟨hns, hf⟩ := (ih _ c).mp hmem'
            exact ⟨fun hs => hns (List.mem_cons_of_mem _ hs), hf⟩
        · rintro ⟨hns, hf⟩
          refine List.mem_cons.mpr (Or.inr ((ih (g.name :: seen) c).mpr ⟨?_, hf⟩))
          intro hs
          rcases List.mem_cons.mp hs with hh | hs'
          · exact hgc hh.symm
          · exact hns hs'

-- ### Helper lemmas: the HTML-scanning adapters

/-- The scan loop harvests exactly the keepable extractions preceding the
first raising block: an exception aborts the loop but the candidates
accumulated before it are returned, not discarded. -/
theorem scanItems_fst (keep : String × String → Bool) :
    ∀ items : List ItemStep, (scanItems keep items).1 = prefixExtract keep items := by
  intro items
  induction items with
  | nil => rfl
  | cons step rest ih =>
    cases step with
    | raise e => rfl
    | ok x =>
      cases x with
      | none =>
        simpa [scanItems, prefixExtract, stepIsOkB, stepExtract,
          List.takeWhile_cons, List.filterMap_cons] using ih
      | some p =>
        simp only [scanItems, prefixExtract] at ih ⊢
        by_cases hk : keep p
        · simpa [List.takeWhile_cons, List.filterMap_cons, stepIsOkB, stepExtract, hk]
            using ih
        · simpa [List.takeWhile_cons, List.filterMap_cons, stepIsOkB, stepExtract, hk]
            using ih

-- ### Claim C1: store search — completeness, ordering, duplication

/-- C1 (counterexample): the claim fails as stated. With the store holding
`⟨1, "a", "has%"⟩` and `⟨2, "%b", ""⟩` and the query `"%"`, the `LIKE`
pattern `%%%` matches every name, so the search returns the store in row
order — yet only the second record's name contains `"%"` as a substring
while the first matches only on description, so the claimed
name-matches-first ordering is violated. -/
theorem c1_counterexample : ¬ C1Claim [⟨1, "a", "has%"⟩, ⟨2, "%b", ""⟩] "%" := by
  intro h
  obtain ⟨-, hord, -⟩ := h
  exact absurd
    (hord ⟨1, by decide⟩ ⟨0, by decide⟩ (by decide) (by decide) (by decide))
    (by decide)

/-- C1 (amended): for every query and every store with pairwise-distinct
ids, the store search still returns every record containing the query as a
case-sensitive substring of its name or description, and no record appears
twice; but precedence is decided by the SQL `LIKE` pattern `'%query%'`, not
by raw substring match: the output is exactly the rows whose name matches
the pattern (in store order) followed by the rows whose description matches
it and whose id was not already returned. -/
theorem c1_amended_search_characterization (store : List Gost) (q : String)
    (hids : (store.map (fun g => g.id)).Nodup) :
    (get_search_list_db store q =
        store.filter (fun g => sqlLike ("%" ++ q ++ "%") g.name)
          ++ (store.filter (fun g => sqlLike ("%" ++ q ++ "%") g.description)).filter
              (fun g => decide (g.id ∉
                (store.filter (fun x => sqlLike ("%" ++ q ++ "%") x.name)).map
                  (fun x => x.id))))
      ∧ (∀ g ∈ store, (substrOnName q g || substrOnDesc q g) = true →
          g ∈ get_search_list_db store q)
      ∧ (get_search_list_db store q).Nodup := by
  have hstore : store.Nodup := hids.of_map
  have hsubD : (store.filter (fun g => sqlLike ("%" ++ q ++ "%") g.description)).Sublist store :=
    List.filter_sublist _
  have hnd2 :
      ((store.filter (fun g => sqlLike ("%" ++ q ++ "%") g.description)).map
        (fun g => g.id)).Nodup :=
    List.Nodup.sublist (hsubD.map (fun g => g.id)) hids
  have hchar : get_search_list_db store q =
      store.filter (fun g => sqlLike ("%" ++ q ++ "%") g.name)
        ++ (store.filter (fun g => sqlLike ("%" ++ q ++ "%") g.description)).filter
            (fun g => decide (g.id ∉
              (store.filter (fun x => sqlLike ("%" ++ q ++ "%") x.name)).map
                (fun x => x.id))) := by
    rw [get_search_list_db_eq]
    exact appendNonDup_eq_filter _ _ _ hnd2
  refine ⟨hchar, ?_, ?_⟩
  · intro g hg hmatch
    rw [hchar]
    by_cases hn : sqlLike ("%" ++ q ++ "%") g.name = true
    · exact List.mem_append_left _ (List.mem_filter.mpr ⟨hg, hn⟩)
    · have hsn : substrOnName q g ≠ true := fun hsub => hn (sqlLike_of_containsSub hsub)
      have hsd : substrOnDesc q g = true := by
        have hor : substrOnName q g = true ∨ substrOnDesc q g = true := by
          simpa using hmatch
        cases hor with
        | inl h1 => exact absurd h1 hsn
        | inr h2 => exact h2
      apply List.mem_append_right
      apply List.mem_filter.mpr
      refine ⟨List.mem_filter.mpr ⟨hg, sqlLike_of_containsSub hsd⟩, ?_⟩
      rw [decide_eq_true_iff]
      intro hin
      obtain ⟨a, haA, haid⟩ := List.mem_map.mp hin
      have haStore : a ∈ store := (List.mem_filter.mp haA).1
      have hag : a = g := List.inj_on_of_nodup_map hids haStore hg haid
      exact hn (hag ▸ (List.mem_filter.mp haA).2)
  · rw [hchar]
    refine List.Nodup.append (List.Nodup.filter _ hstore)
      (List.Nodup.filter _ (List.Nodup.filter _ hstore)) ?_
    intro x hxA hxB
    obtain ⟨hx1, hx2⟩ := List.mem_filter.mp hxB
    rw [decide_eq_true_iff] at hx2
    exact hx2 (List.mem_map_of_mem _ hxA)

/-- C1 (witness): the amended characterization applied to the spec's own
ordering example — the store holding `⟨1, "ГОСТ 5", "widgets"⟩` and
`⟨2, "ГОСТ widgets 9", "n/a"⟩` with query `"widgets"` — its id-distinctness
hypothesis discharged by evaluation. -/
theorem c1_amended_search_witness :
    (([⟨1, "ГОСТ 5", "widgets"⟩, ⟨2, "ГОСТ widgets 9", "n/a"⟩] : List Gost).map
      (fun g => g.id)).Nodup
    ∧ (get_search_list_db [⟨1, "ГОСТ 5", "widgets"⟩, ⟨2, "ГОСТ widgets 9", "n/a"⟩]
        "widgets").Nodup :=
  ⟨by decide,
    (c1_amended_search_characterization
      [⟨1, "ГОСТ 5", "widgets"⟩, ⟨2, "ГОСТ widgets 9", "n/a"⟩] "widgets" (by decide)).2.2⟩

-- ### Claim C2: store-first search policy with case-insensitive fallback

/-- C2: for every query, `get_search_list` is the store-first policy: when
the store search yields at least one match, the result is exactly those
matches formatted as name/description pairs — and it does not depend on the
adapters at all; when the store yields nothing, the result is exactly the
aggregator's fetch-all output filtered to the candidates whose name or
description contains the query case-insensitively, as pairs. -/
theorem c2_store_first_policy (store : List Gost) (runs runs' : List SourceRun) (q : String) :
    (get_search_list store runs q =
      if (get_search_list_db store q).isEmpty then
        ((fetch_from_all_sources runs).filter (onlineMatch q)).map
          (fun g => (g.name, g.description))
      else
        (get_search_list_db store q).map (fun g => (g.name, g.description)))
    ∧ ((get_search_list_db store q).isEmpty = false →
        get_search_list store runs q = get_search_list store runs' q) := by
  constructor
  · rfl
  · intro h
    simp only [get_search_list, h, Bool.false_eq_true, if_false]

/-- C2 (witness): with the store holding `⟨1, "a", "b"⟩` and the query
`"a"`, the store search is non-empty, and the theorem's independence part
shows the result is the same whether an adapter is available or not. -/
theorem c2_store_first_witness :
    ((get_search_list_db [⟨1, "a", "b"⟩] "a").isEmpty = false)
    ∧ get_search_list [⟨1, "a", "b"⟩] [Except.ok [⟨"x", "y"⟩]] "a"
        = get_search_list [⟨1, "a", "b"⟩] [] "a" :=
  ⟨by decide,
    (c2_store_first_policy [⟨1, "a", "b"⟩] [Except.ok [⟨"x", "y"⟩]] [] "a").2 (by decide)⟩

-- ### Claim C3: empty-query guard

/-- C3 (counterexample): the claim fails as stated. `get_search_list` has no
empty-query guard: on the store `[⟨1, "a", "b"⟩]` the empty query returns
`[("a", "b")]` — the whole store — not the empty sequence the spec
requires. -/
theorem c3_counterexample :
    get_search_list [⟨1, "a", "b"⟩] [] "" ≠ []
    ∧ get_search_list [⟨1, "a", "b"⟩] [] "" = [("a", "b")] := by
  constructor
  · decide
  · decide

/-- C3 (amended): nothing short-circuits an empty query. The empty query's
`LIKE` pattern `%%` matches every row, so on every non-empty store the
search returns the entire store as name/description pairs (rather than the
empty sequence); only an empty store falls through to the online path. -/
theorem c3_amended_empty_query (store : List Gost) (runs : List SourceRun)
    (h : store ≠ []) :
    get_search_list store runs "" = store.map (fun g => (g.name, g.description)) := by
  have hdb := get_search_list_db_empty_query store
  unfold get_search_list
  rw [hdb, if_neg (by simpa using h)]

/-- C3 (witness): the amended statement applied to the one-record store
`[⟨1, "a", "b"⟩]`, discharging its non-emptiness hypothesis by evaluation. -/
theorem c3_amended_empty_query_witness :
    (([⟨1, "a", "b"⟩] : List Gost) ≠ [])
    ∧ get_search_list [⟨1, "a", "b"⟩] [] ""
        = ([⟨1, "a", "b"⟩] : List Gost).map (fun g => (g.name, g.description)) :=
  ⟨by decide, c3_amended_empty_query [⟨1, "a", "b"⟩] [] (by decide)⟩

-- ### Claim C4: idempotence of merge-and-persist

/-- C4: merge-and-persist is idempotent against the store. For every store
state and every fixed set of adapter outcomes, running
`update_database_from_all_sources` a second time on the store the first run
produced inserts nothing: it returns the unchanged store and the count 0. -/
theorem c4_merge_idempotent (store : List Gost) (runs : List SourceRun) :
    update_database_from_all_sources (update_database_from_all_sources store runs).1 runs
      = ((update_database_from_all_sources store runs).1, 0) := by
  unfold update_database_from_all_sources
  exact save_skip_all _ _ (fun g hg => save_name_covered _ store g hg)

-- ### Claim C5: name-uniqueness invariant of the store

/-- C5 (counterexample): the claim fails as stated. Uniqueness is enforced
by exact name comparison, never by trimmed comparison: upserting the batch
`[⟨"a", ""⟩, ⟨"a ", ""⟩]` into the empty store stores both candidates, and
the two stored rows share the identical whitespace-trimmed name `"a"`. -/
theorem c5_counterexample :
    ¬ ((save_gosts_to_db [] [⟨"a", ""⟩, ⟨"a ", ""⟩]).1).Pairwise
        (fun a b => pyStrip a.name ≠ pyStrip b.name) := by
  decide

/-- C5 (amended): after every sequence of upsert operations starting from
the empty store, no two stored records share an identical exact name —
`save_gosts_to_db` inserts a candidate only when no stored row carries
precisely its name, so exact-name (not trimmed-name) uniqueness is the
invariant the code maintains. -/
theorem c5_amended_exact_name_unique (batches : List (List Candidate)) :
    (batches.foldl (fun st b => (save_gosts_to_db st b).1) []).Pairwise
      (fun a b => a.name ≠ b.name) := by
  suffices h : ∀ (bs : List (List Candidate)) (store : List Gost),
      store.Pairwise (fun a b => a.name ≠ b.name) →
      (bs.foldl (fun st b => (save_gosts_to_db st b).1) store).Pairwise
        (fun a b => a.name ≠ b.name) by
    exact h batches [] List.Pairwise.nil
  intro bs
  induction bs with
  | nil => intro store h; exact h
  | cons b rest ih =>
    intro store h
    exact ih _ (save_pairwise b store h)

-- ### Claim C6: dedup tie-break — first occurrence in registry order wins

/-- C6: a candidate survives the aggregator's merge iff it is the first
accumulated candidate carrying its name, where accumulation walks the
registered adapters in registry order — so when several origins report the
same name, the earliest origin's description is the one kept; in
particular, for origin A reporting `("ГОСТ 1", "X")` registered before
origin B reporting `("ГОСТ 1", "Y")`, the persisted record's description is
`"X"`. -/
theorem c6_dedup_first_wins :
    (∀ (runs : List SourceRun) (c : Candidate),
      c ∈ fetch_from_all_sources runs ↔
        (allFetched runs).find? (fun x => x.name == c.name) = some c)
    ∧ (save_gosts_to_db []
        (fetch_from_all_sources [Except.ok [⟨"ГОСТ 1", "X"⟩], Except.ok [⟨"ГОСТ 1", "Y"⟩]])).1
      = [⟨1, "ГОСТ 1", "X"⟩] := by
  constructor
  · intro runs c
    unfold fetch_from_all_sources
    simpa using mem_dedupGosts (allFetched runs) [] c
  · decide

-- ### Claim C7: adapters never raise and keep partial results

/-- C7: over every behaviour of the fetch/parse collaborators, each
adapter's fetch returns a plain list instead of propagating an exception.
For `gost.ru`: a failed catalog request, a page without a CSV link, or a
failed CSV download/decode each yield the empty list (every fallible step
precedes the row loop, so no partial rows exist to keep), and a successful
download yields the parsed rows after the header. For the six HTML-scanning
adapters: a failed page fetch yields the empty list, and the scan returns
exactly the keepable extractions preceding the first raising block — a
mid-stream failure keeps the candidates parsed before it rather than
discarding them, and for `protect.gost.ru` a failure while scanning the
first prefix page also skips the second. -/
theorem c7_adapters_contain_failures :
    (∀ (e : String) (links : List String) (csv : Except String (List String)),
        gostRu_fetch_gosts (Except.error e) links csv = [])
    ∧ (∀ (links : List String) (e : String),
        gostRu_fetch_gosts (Except.ok ()) links (Except.error e) = [])
    ∧ (∀ (link : String) (links lines : List String),
        gostRu_fetch_gosts (Except.ok ()) (link :: links) (Except.ok lines)
          = gostRuParseRows (lines.drop 1))
    ∧ (∀ page, docsCntd_fetch_gosts page = prefixExtract docsCntdKeep (page.getD []))
    ∧ (∀ page, meganorm_fetch_gosts page = prefixExtract meganormKeep (page.getD []))
    ∧ (∀ page, filesStroyinf_fetch_gosts page = prefixExtract filesStroyinfKeep (page.getD []))
    ∧ (∀ page, internetLaw_fetch_gosts page = prefixExtract internetLawKeep (page.getD []))
    ∧ (∀ page, libGost_fetch_gosts page = prefixExtract libGostKeep (page.getD []))
    ∧ (∀ p1 p2, protectGost_fetch_gosts p1 p2 =
        prefixExtract protectKeep (p1.getD []) ++
          (if (scanItems protectKeep (p1.getD [])).2.isSome then []
           else prefixExtract protectKeep (p2.getD []))) := by
  refine ⟨fun e links csv => rfl, ?_, fun link links lines => rfl, ?_, ?_, ?_, ?_, ?_, ?_⟩
  · intro links e
    cases links <;> rfl
  · intro page
    cases page with
    | none => rfl
    | some items => exact scanItems_fst docsCntdKeep items
  · intro page
    cases page with
    | none => rfl
    | some items => exact scanItems_fst meganormKeep items
  · intro page
    cases page with
    | none => rfl
    | some items => exact scanItems_fst filesStroyinfKeep items
  · intro page
    cases page with
    | none => rfl
    | some items => exact scanItems_fst internetLawKeep items
  · intro page
    cases page with
    | none => rfl
    | some items => exact scanItems_fst libGostKeep items
  · intro p1 p2
    have hp2 : ∀ p : Option (List ItemStep),
        (match p with
          | none => (([] : List Candidate), (none : Option String))
          | some items => scanItems protectKeep items).1
          = prefixExtract protectKeep (p.getD []) := by
      intro p
      cases p with
      | none => rfl
      | some items => exact scanItems_fst protectKeep items
    cases p1 with
    | none =>
      simp only [protectGost_fetch_gosts, Option.getD]
      rw [hp2 p2]
      rfl
    | some items1 =>
      cases hits : (scanItems protectKeep items1).2 with
      | some e =>
        simp only [protectGost_fetch_gosts, hits, Option.getD, Option.isSome, if_true]
        rw [← scanItems_fst protectKeep items1]
        simp [hits]
      | none =>
        simp only [protectGost_fetch_gosts, hits, Option.getD, Option.isSome]
        rw [hp2 p2, ← scanItems_fst protectKeep items1]
        cases p2 <;> rfl

-- ### Claim C8: aggregator isolates per-origin invocation failures

/-- C8: for every subset of adapter invocations that raise,
`fetch_from_all_sources` skips exactly those and accumulates the records of
all non-raising adapters in order (then de-duplicates): its result equals
the de-duplicated concatenation of the non-raising adapters' lists, and is
unchanged when every raising adapter is replaced by one returning the empty
list — no origin's failure prevents collection from the others. -/
theorem c8_aggregator_error_isolation (runs : List SourceRun) :
    fetch_from_all_sources runs = dedupGosts (concatAll (okResults runs)) []
    ∧ fetch_from_all_sources runs =
        fetch_from_all_sources (runs.map (fun r =>
          match r with
          | Except.error _ => Except.ok []
          | Except.ok gs => Except.ok gs)) := by
  constructor
  · unfold fetch_from_all_sources
    rw [allFetched_eq]
  · unfold fetch_from_all_sources
    rw [allFetched_errors_dropped]

-- ### Claim C9: empty-name candidates

/-- C9 (counterexample): the claim fails as stated. The candidate with the
empty name is not rejected during persistence: saving it into the empty
store inserts a row whose name trims to empty and reports one insert. -/
theorem c9_counterexample :
    (∃ e ∈ (save_gosts_to_db [] [⟨"", ""⟩]).1, pyStrip e.name = "")
    ∧ (save_gosts_to_db [] [⟨"", ""⟩]).2 = 1 := by
  constructor
  · exact ⟨⟨1, "", ""⟩, by decide, by decide⟩
  · decide

/-- C9 (amended): a candidate whose name is empty after whitespace trimming
receives no special treatment from persistence: like any other candidate it
is inserted (and counted) exactly when no stored row carries its exact
name, and the batch does not fail. -/
theorem c9_amended_empty_name_persisted (store : List Gost) (g : Candidate)
    (_h : pyStrip g.name = "") :
    save_gosts_to_db store [g] =
      if store.any (fun e => e.name == g.name) then (store, 0)
      else (store ++ [⟨store.length + 1, g.name, g.description⟩], 1) := by
  by_cases hany : store.any (fun e => e.name == g.name) = true
  · simp only [save_gosts_to_db, if_pos hany]
  · simp only [save_gosts_to_db, if_neg hany]

/-- C9 (witness): the amended statement applied to the empty-name candidate
`⟨"", ""⟩` and the empty store: the candidate is stored and counted. -/
theorem c9_amended_empty_name_witness :
    pyStrip ("" : String) = ""
    ∧ save_gosts_to_db [] [⟨"", ""⟩] = ([⟨1, "", ""⟩], 1) :=
  ⟨by decide, by
    have h2 := c9_amended_empty_name_persisted [] ⟨"", ""⟩ (by decide)
    simpa using h2⟩

-- ### Claim C10: LIKE wildcards are live in the store search

/-- C10: the store search wraps the raw query in SQL `LIKE` wildcards, so
`%` and `_` in a query act as wildcards, not literals: the query `"%"`
returns every store in full (its pattern `%%%` matches every row, not only
rows containing a literal percent sign), and the query `"a_"` matches the
record named `"ab"` even though `"a_"` is not a substring of `"ab"`. -/
theorem c10_like_wildcards :
    (∀ store : List Gost, get_search_list_db store "%" = store)
    ∧ get_search_list_db [⟨1, "ab", ""⟩] "a_" = [⟨1, "ab", ""⟩]
    ∧ containsSub "ab" "a_" = false := by
  refine ⟨?_, by decide, by decide⟩
  intro store
  exact get_search_list_db_matchall store "%" sqlLike_pct_query
